import Mathlib

/-!
Verification of `osquery/tables/forensic/sleuthkit.cpp`.

Shallow embedding of the sleuthkit forensic tables: the `DeviceHelper`
accessor with its cached open, the partition enumerator
(`genDevicePartitions`), the recursive directory walker
(`DeviceHelper::generateFiles` / `generateFile`) with its depth guard and
path-based visited set, and the file-listing query (`genDeviceFile`) with
its path and inode lookups.

External-library (TSK, boost) responses are modelled as data carried by the
input structures: a partition carries the outcome of `TskFsInfo::open` on
it, a filesystem carries the directory table (`TskFsDir::open`) and the
path/inode open tables (`TskFsFile::open`). Machine integers are `Nat`,
with an explicit `% 2 ^ 64` on the one product the source computes in
`uint64` arithmetic.
-/

namespace Sleuthkit

/-- TSK_FS_META_TYPE_ENUM, restricted to the tags the table distinguishes;
`other` stands for every tag outside `kTSKTypeNames`. -/
inductive MetaType where
  | reg | dir | lnk | blk | chr | fifo | sock | other
deriving DecidableEq

/-- `TskFsMeta`: the metadata block of a file or directory.  `name2_0` is
the `getName2(0)` slot ("parent name"); `none` models a NULL return. -/
structure MetaInfo where
  addr : Nat
  type : MetaType
  uid : Int
  gid : Int
  modeNat : Nat
  size : Int
  atime : Int
  mtime : Int
  crtime : Int
  nlink : Int
  name2_0 : Option String
deriving DecidableEq

/-- `TskFsFile`: `meta` models `getMeta()` (`none` = NULL), `name` models
`getName()->getName()` (`none` = NULL name structure), `fsBlockSize` models
`getFsInfo()->getBlockSize()` (`none` = NULL fs info). -/
structure TskFsFile where
  meta : Option MetaInfo
  name : Option String
  fsBlockSize : Option Nat
deriving DecidableEq

/-- An osquery `Row` restricted to the columns this table writes; a field
is `none` when the column was never assigned. -/
structure Row where
  device : Option String := none
  partition : Option String := none
  label : Option String := none
  type : Option String := none
  flags : Option String := none
  offset : Option String := none
  blocks_size : Option String := none
  blocks : Option String := none
  inodes : Option String := none
  path : Option String := none
  filename : Option String := none
  block_size : Option String := none
  inode : Option String := none
  uid : Option String := none
  gid : Option String := none
  mode : Option String := none
  size : Option String := none
  atime : Option String := none
  mtime : Option String := none
  ctime : Option String := none
  hard_links : Option String := none
deriving DecidableEq

/-- `kTSKTypeNames` lookup with the `"unknown"` fallback of
`DeviceHelper::generateFile`. -/
def typeNameOf : MetaType → String
  | .reg => "regular"
  | .dir => "directory"
  | .lnk => "symlink"
  | .blk => "block"
  | .chr => "character"
  | .fifo => "fifo"
  | .sock => "socket"
  | .other => "unknown"

/-- First character of a string, if any. -/
def strHead (s : String) : Option Char :=
  s.data.head?

/-- Last character of a string, if any. -/
def strLast (s : String) : Option Char :=
  s.data.getLast?

/-- `boost::filesystem::path(path).leaf().string()`: the last component;
a trailing separator yields `"."`, the lone root stays `"/"`. -/
def pathLeaf (p : String) : String :=
  if p = "" then ""
  else if p = "/" then "/"
  else if strLast p = some '/' then "."
  else String.mk ((p.data.reverse.takeWhile (fun c => c ≠ '/')).reverse)

/-- `(boost::filesystem::path(p) / n).string()`: appending an empty
component is a no-op, a component starting with the separator is
concatenated directly, otherwise a separator is inserted unless `p`
already ends in one (or is itself empty). -/
def joinPath (p n : String) : String :=
  if n = "" then p
  else if strHead n = some '/' then p ++ n
  else if p = "" then n
  else if strLast p = some '/' then p ++ n
  else p ++ "/" ++ n

/-- `TSK_FS_ISDOT`: the name is `"."` or `".."`. -/
def isDot (s : String) : Bool :=
  s == "." || s == ".."

/-- A filesystem (`TskFsInfo`) as seen through the accessors the table
calls.  `dirs i` is the outcome of `TskFsDir::open(fs, i)`; `fileByPath`
and `fileByInode` are the outcomes of the two `TskFsFile::open` overloads;
`fsTypeName` is `TskFsInfo::typeToName(getFsType())`. -/
structure TskFsInfo where
  fsTypeName : String
  flags : Nat
  offset : Nat
  blockSize : Nat
  blockCount : Nat
  inumCount : Nat
  rootINum : Nat
  dirs : Nat → Option (List (Option TskFsFile))
  fileByPath : String → Option TskFsFile
  fileByInode : Nat → Option TskFsFile

/-- The mutable state threaded through `DeviceHelper::generateFiles`:
`stack` is `stack_`, `loops` is the visited-set `loops_`, `rows` is the
caller's `QueryData results`.  `descents` and `visits` are ghost
observation fields not present in the source: `descents` records each
recursive call `(inode, path)` made from the pending loop, `visits`
counts the calls that proceed past the depth guard; they are written
exactly at those two points and never read, and exist only to let
traversal-order and visit-count properties be stated. -/
structure WalkState where
  stack : Nat
  loops : List String
  rows : List Row
  descents : List (Nat × String)
  visits : Nat
deriving DecidableEq

/-- The state of a fresh `DeviceHelper` (or one after `resetStack`). -/
def initWalkState : WalkState :=
  { stack := 0, loops := [], rows := [], descents := [], visits := 0 }

/-- `DeviceHelper::generateFile`: map one file handle to a row.  Fields
are set exactly when the source sets them: path-level fields always,
`block_size` when `getFsInfo()` is non-NULL, metadata fields when
`getMeta()` is non-NULL. -/
def generateFileRow (dp pt p : String) (file : TskFsFile) : Row :=
  let r : Row := { device := some dp, partition := some pt,
                   path := some p, filename := some (pathLeaf p) }
  let r := match file.fsBlockSize with
    | some bs => { r with block_size := some (toString bs) }
    | none => r
  match file.meta with
  | none => r
  | some m =>
    { r with inode := some (toString m.addr), uid := some (toString m.uid),
             gid := some (toString m.gid), mode := some (toString m.modeNat),
             size := some (toString m.size), atime := some (toString m.atime),
             mtime := some (toString m.mtime), ctime := some (toString m.crtime),
             hard_links := some (toString m.nlink),
             type := some (typeNameOf m.type) }

/-- Insertion into the pending `std::map<TSK_INUM_T, std::string>`:
sorted by key, `additional[k] = v` overwrites an existing key. -/
def mapInsert : List (Nat × String) → Nat → String → List (Nat × String)
  | [], k, v => [(k, v)]
  | (k2, v2) :: rest, k, v =>
    if k < k2 then (k, v) :: (k2, v2) :: rest
    else if k = k2 then (k, v) :: rest
    else (k2, v2) :: mapInsert rest k v

/-- One iteration of the entry loop of `DeviceHelper::generateFiles`:
a NULL file or NULL metadata is skipped; a regular file appends a row
using the joined leaf path (empty when the name is NULL); a directory
entry with a non-NULL, non-dot name is recorded in the pending map keyed
by its inode address. -/
def processEntry (path dp pt : String)
    (acc : List Row × List (Nat × String)) (oe : Option TskFsFile) :
    List Row × List (Nat × String) :=
  match oe with
  | none => acc
  | some file =>
    match file.meta with
    | none => acc
    | some m =>
      let leaf := match file.name with
        | some n => joinPath path n
        | none => ""
      if m.type = MetaType.reg then
        (acc.1 ++ [generateFileRow dp pt leaf file], acc.2)
      else if m.type = MetaType.dir then
        match file.name with
        | some n => if isDot n then acc else (acc.1, mapInsert acc.2 m.addr leaf)
        | none => acc
      else acc

/-- `DeviceHelper::generateFiles`, fuel-indexed.  The guard
`if (stack_++ > 1024) return;` is checked before fuel is consumed, so the
fuel bounds only the nesting depth of guard-passing calls; theorem
`generateFilesF_fuel_irrelevant` below shows every fuel from 1025 up
computes the same result, which is why `generateFiles` fixes the fuel at
1025 and why the C++ recursion terminates. -/
def generateFilesF (fs : TskFsInfo) (dp pt : String) :
    Nat → String → Nat → WalkState → WalkState
  | fuel, path, inode, st =>
    if 1024 < st.stack then { st with stack := st.stack + 1 }
    else
      match fuel with
      | 0 => { st with stack := st.stack + 1 }
      | g + 1 =>
        match fs.dirs (if inode = 0 then fs.rootINum else inode) with
        | none => { st with stack := st.stack + 1, visits := st.visits + 1 }
        | some entries =>
          let ra := entries.foldl (processEntry path dp pt) ([], [])
          let st1 : WalkState :=
            { st with stack := st.stack + 1, visits := st.visits + 1,
                      rows := st.rows ++ ra.1 }
          ra.2.foldl (fun s d =>
            if d.2 ∈ s.loops then s
            else
              let s2 := generateFilesF fs dp pt g d.2 d.1
                { s with descents := s.descents ++ [(d.1, d.2)] }
              { s2 with loops := s2.loops.insert d.2 }) st1

/-- The body of the pending loop (`for (const auto& dir : additional)`):
check the visited-set, recurse, then insert the path. -/
def descendStep (fs : TskFsInfo) (dp pt : String) (g : Nat)
    (s : WalkState) (d : Nat × String) : WalkState :=
  if d.2 ∈ s.loops then s
  else
    let s2 := generateFilesF fs dp pt g d.2 d.1
      { s with descents := s.descents ++ [(d.1, d.2)] }
    { s2 with loops := s2.loops.insert d.2 }

/-- `DeviceHelper::generateFiles` proper: fuel 1025 is exact
(`generateFilesF_fuel_irrelevant`). -/
def generateFiles (fs : TskFsInfo) (dp pt path : String) (inode : Nat)
    (st : WalkState) : WalkState :=
  generateFilesF fs dp pt 1025 path inode st

/-- `TSK_VS_PART_FLAG_UNALLOC`. -/
def FLAG_UNALLOC : Nat := 2

/-- `TSK_VS_PART_FLAG_META`. -/
def FLAG_META : Nat := 4

/-- `TskVsPartInfo` together with the outcome of `TskFsInfo::open` on it:
`fsResult = none` models a nonzero open status (no recognizable
filesystem), `some fs` a successful open. -/
structure TskVsPartInfo where
  addr : Nat
  desc : Option String
  flags : Nat
  start : Nat
  len : Nat
  fsResult : Option TskFsInfo

/-- `TskVsInfo`: block size and `getPart` outcomes for indices
`0 .. getPartCount() - 1` (a `none` entry models a NULL partition). -/
structure TskVsInfo where
  blockSize : Nat
  parts : List (Option TskVsPartInfo)

/-- A device as the TSK library responds to it: the status codes of
`TskImgInfo::open` and `TskVsInfo::open` (0 = success) and the volume
read on success. -/
structure Device where
  imageOpenStatus : Nat
  volumeOpenStatus : Nat
  volume : TskVsInfo

/-- The caching fields of `DeviceHelper`: `opened_` and `opened_result_`. -/
structure OpenState where
  opened : Bool
  openedResult : Bool
deriving DecidableEq

/-- A fresh `DeviceHelper`: both fields initialised to `false`. -/
def initOpenState : OpenState := { opened := false, openedResult := false }

/-- `DeviceHelper::open`.  Returns the boolean outcome, the new cache
state, and the number of library open calls performed (0 when the cached
outcome is reused, 1 when the image open fails, 2 when the volume open is
also attempted). -/
def dhOpen (d : Device) (st : OpenState) : Bool × OpenState × Nat :=
  if st.opened then (st.openedResult, st, 0)
  else
    let st := { st with opened := true }
    if d.imageOpenStatus ≠ 0 then
      (false, { st with openedResult := false }, 1)
    else
      let ok := d.volumeOpenStatus = 0
      (ok, { st with openedResult := ok }, 2)

/-- What `DeviceHelper::open` returns on a fresh helper (used by
`DeviceHelper::partitions`): both opens must succeed. -/
def deviceOpens (d : Device) : Bool :=
  d.imageOpenStatus = 0 && d.volumeOpenStatus = 0

/-- The row built by the `genDevicePartitions` visitor for one non-NULL
partition.  `offset` on the failure branch is
`BIGINT(part->getStart() * dh.getVolume()->getBlockSize())`, a `uint64`
product, hence the `% 2 ^ 64`. -/
def partitionRow (dev : String) (volBlockSize : Nat) (part : TskVsPartInfo) :
    Row :=
  let r : Row := { device := some dev, partition := some (toString part.addr) }
  let r := match part.desc with
    | some d => { r with label := some d }
    | none => r
  let r := { r with flags := some "0" }
  let r :=
    if part.flags &&& FLAG_META ≠ 0 then { r with type := some "meta" }
    else if part.flags &&& FLAG_UNALLOC ≠ 0 then
      { r with type := some "unallocated" }
    else { r with type := some "normal" }
  match part.fsResult with
  | none =>
    { r with offset := some (toString ((part.start * volBlockSize) % 2 ^ 64)),
             blocks_size := some (toString volBlockSize),
             blocks := some (toString part.len),
             inodes := some "-1",
             flags := some (toString part.flags) }
  | some fs =>
    { r with type := some fs.fsTypeName,
             flags := some (toString fs.flags),
             offset := some (toString fs.offset),
             blocks_size := some (toString fs.blockSize),
             blocks := some (toString fs.blockCount),
             inodes := some (toString fs.inumCount) }

/-- `genDevicePartitions`: one `DeviceHelper` per constrained device; if
its open fails the visitor never runs; NULL partitions are skipped. -/
def genDevicePartitions (env : String → Device) (devices : List String) :
    List Row :=
  devices.foldl (fun results dev =>
    let d := env dev
    if deviceOpens d then
      results ++ (d.volume.parts.filterMap id).map
        (partitionRow dev d.volume.blockSize)
    else results) []

/-- Decimal parse of a character list: `some` exactly when nonempty and
all digits. -/
def decParse (l : List Char) : Option Nat :=
  match l with
  | [] => none
  | _ =>
    l.foldl (fun acc c =>
      acc.bind (fun a =>
        if 48 ≤ c.toNat ∧ c.toNat ≤ 57 then some (a * 10 + (c.toNat - 48))
        else none)) (some 0)

/-- Decimal parse of a string. -/
def strToNat (s : String) : Option Nat :=
  decParse s.data

/-- Modelled from the spec: `safeStrtol` (declared in
`osquery/core/conversions.h`, not under `src/`) parses an inode address
from a decimal string.  The call site in `genDeviceFile` initialises
`meta` to 0 and ignores the returned status, so `meta` ends up as the
parsed value for a valid decimal string and stays 0 otherwise; this
function models that resulting value. -/
def parsedInode (s : String) : Nat :=
  (strToNat s).getD 0

/-- The path-lookup loop body of `genDeviceFile`: one row on a successful
`TskFsFile::open` by path, nothing on failure. -/
def pathLookupRows (dp adr : String) (fs : TskFsInfo) (p : String) :
    List Row :=
  match fs.fileByPath p with
  | some file => [generateFileRow dp adr p file]
  | none => []

/-- The inode-lookup loop body of `genDeviceFile`.  `none` models the
crash of `meta->getName2(0)->getName()` when `getName2(0)` returns NULL
(metadata present but no name slot at index 0); otherwise the emitted
rows (empty when the open by inode address fails). -/
def inodeLookupRows (dp adr : String) (fs : TskFsInfo) (s : String) :
    Option (List Row) :=
  let meta := parsedInode s
  match fs.fileByInode meta with
  | none => some []
  | some file =>
    match file.meta with
    | none => some [generateFileRow dp adr "" file]
    | some m =>
      match m.name2_0 with
      | none => none
      | some n => some [generateFileRow dp adr n file]

/-- The inode loop of `genDeviceFile` over all constrained inode strings,
propagating a crash. -/
def inodesRows (dp adr : String) (fs : TskFsInfo) (inodes : List String) :
    Option (List Row) :=
  inodes.foldl (fun acc s =>
    acc.bind (fun rs => (inodeLookupRows dp adr fs s).map (rs ++ ·)))
    (some [])

/-- The `genDeviceFile` visitor for one non-NULL partition: skip unless
the address matches the single partition constraint; skip when the
filesystem open fails; otherwise walk (only when neither paths nor inodes
were constrained; the helper state is fresh, matching the fresh helper
resp. the `resetStack` after the previous walk), then the path lookups,
then the inode lookups. -/
def partVisitor (dp parts0 : String) (paths inodes : List String)
    (part : TskVsPartInfo) : Option (List Row) :=
  let address := toString part.addr
  if address = parts0 then
    match part.fsResult with
    | none => some []
    | some fs =>
      let walkRows :=
        if inodes = [] ∧ paths = [] then
          (generateFiles fs dp address "/" 0 initWalkState).rows
        else []
      let pRows := paths.foldl (fun a p => a ++ pathLookupRows dp address fs p) []
      (inodesRows dp address fs inodes).map (fun ir => walkRows ++ pRows ++ ir)
  else some []

/-- The constraint sets handed to `genDeviceFile`
(`context.constraints[...].getAll(EQUALS)`); each list stands for the
contents of the corresponding `std::set<std::string>` in its iteration
order, so `parts.head?` is `*parts.begin()`. -/
structure QueryContext where
  devices : List String
  parts : List String
  paths : List String
  inodes : List String

/-- The diagnostic `genDeviceFile` logs when the required filters are
missing. -/
def missingFilterLog : String :=
  "Device files require at least one device and a single partition"

/-- `genDeviceFile`: result rows plus logged diagnostics; `none` models a
crash inside an inode lookup. -/
def genDeviceFile (env : String → Device) (ctx : QueryContext) :
    Option (List Row × List String) :=
  if ctx.devices = [] ∨ ctx.parts.length ≠ 1 then
    some ([], [missingFilterLog])
  else
    (ctx.devices.foldl (fun acc dev =>
      acc.bind (fun rs =>
        let d := env dev
        if deviceOpens d then
          (d.volume.parts.filterMap id).foldl (fun a part =>
            a.bind (fun xs =>
              (partVisitor dev ((ctx.parts.head?).getD "") ctx.paths
                  ctx.inodes part).map (xs ++ ·)))
            (some rs)
        else some rs)) (some [])).map (fun rs => (rs, []))

/-- No directory entry of `fs` carries an empty name string. -/
def namesNonempty (fs : TskFsInfo) : Prop :=
  ∀ i l, fs.dirs i = some l → ∀ oe ∈ l, ∀ f, oe = some f →
    ∀ n, f.name = some n → n ≠ ""

/-- The row the entry loop emits for one enumerated entry, when that
entry is a regular file (`none` otherwise); used to state that regular
files are emitted in native enumeration order. -/
def regularRowOf (dp pt path : String) (oe : Option TskFsFile) : Option Row :=
  match oe with
  | none => none
  | some f =>
    match f.meta with
    | none => none
    | some m =>
      if m.type = MetaType.reg then
        some (generateFileRow dp pt
          (match f.name with | some n => joinPath path n | none => "") f)
      else none

/-- Potential of a walk state: the number of guard-passing calls a walk
can still make, plus those already made.  Non-increasing along the walk
(`phi_nonincreasing`), which bounds the total number of guard-passing
calls. -/
def phi (s : WalkState) : Nat :=
  s.visits + (1025 - s.stack)

/-- What one walker call adds, seen from its caller: the descent trace
grows by a block `new` of descents whose paths strictly extend the call
path, are pairwise distinct and previously unvisited, and the
visited-set grows by exactly those paths. -/
def WalkNewSpec (path : String) (st r : WalkState) : Prop :=
  ∃ new, r.descents = st.descents ++ new ∧
    (∀ d ∈ new, path.length < (Prod.snd d).length) ∧
    (new.map Prod.snd).Nodup ∧
    (∀ d ∈ new, Prod.snd d ∉ st.loops) ∧
    (∀ x, x ∈ r.loops ↔ x ∈ st.loops ∨ x ∈ new.map Prod.snd)

/-- Directory metadata block at inode address `a`. -/
def dirMeta (a : Nat) : MetaInfo :=
  { addr := a, type := MetaType.dir, uid := 0, gid := 0, modeNat := 0,
    size := 0, atime := 0, mtime := 0, crtime := 0, nlink := 1,
    name2_0 := none }

/-- Regular-file metadata block at inode address `a`. -/
def regMeta (a : Nat) : MetaInfo :=
  { dirMeta a with type := MetaType.reg }

/-- A directory entry handle with inode address `a` and name `n`. -/
def dirEntry (a : Nat) (n : String) : TskFsFile :=
  { meta := some (dirMeta a), name := some n, fsBlockSize := none }

/-- A regular-file entry handle with inode address `a` and name `n`. -/
def regEntry (a : Nat) (n : String) : TskFsFile :=
  { meta := some (regMeta a), name := some n, fsBlockSize := some 512 }

/-- A filesystem whose every accessor fails; concrete filesystems below
override its fields. -/
def baseFS : TskFsInfo :=
  { fsTypeName := "ext4", flags := 1, offset := 2048, blockSize := 512,
    blockCount := 1000, inumCount := 256, rootINum := 1,
    dirs := fun _ => none, fileByPath := fun _ => none,
    fileByInode := fun _ => none }

/-- Directory table of `chainFS`: inode `i` contains one subdirectory
named `"d"` at inode `i + 1`, for `i = 1 .. 2000`. -/
def chainDirs (i : Nat) : Option (List (Option TskFsFile)) :=
  if 1 ≤ i ∧ i ≤ 2000 then some [some (dirEntry (i + 1) "d")]
  else if i = 2001 then some []
  else none

/-- A chain of 2000 nested directories. -/
def chainFS : TskFsInfo :=
  { baseFS with dirs := chainDirs }

/-- Directory table of `wideFS`: the root holds 1030 empty
subdirectories with distinct names, at inode addresses `2 .. 1031`. -/
def wideDirs (i : Nat) : Option (List (Option TskFsFile)) :=
  if i = 1 then
    some ((List.range 1030).map (fun k =>
      some (dirEntry (k + 2) ("d" ++ toString (k + 2)))))
  else if 2 ≤ i ∧ i ≤ 1031 then some []
  else none

/-- A wide, shallow tree with 1030 subdirectories under the root. -/
def wideFS : TskFsInfo :=
  { baseFS with dirs := wideDirs }

/-- Directory table of `fsSib`: two sibling directory entries with the
same name `"a"` (so the same child path `"/a"`) but distinct inode
addresses. -/
def sibDirs (i : Nat) : Option (List (Option TskFsFile)) :=
  if i = 1 then some [some (dirEntry 3 "a"), some (dirEntry 2 "a")]
  else if i = 2 ∨ i = 3 then some []
  else none

/-- Siblings resolving to one child path. -/
def fsSib : TskFsInfo :=
  { baseFS with dirs := sibDirs }

/-- Directory table of `fsDup`: root holds `"x"`; `/x` holds an
empty-named subdirectory, which holds another: both empty-named entries
resolve to the child path `"/x"` itself, so the path `"/x"` is descended
into more than once. -/
def dupDirs (i : Nat) : Option (List (Option TskFsFile)) :=
  if i = 1 then some [some (dirEntry 2 "x")]
  else if i = 2 then some [some (dirEntry 3 "")]
  else if i = 3 then some [some (dirEntry 4 "")]
  else if i = 4 then some []
  else none

/-- A filesystem on which one child path is descended into twice. -/
def fsDup : TskFsInfo :=
  { baseFS with dirs := dupDirs }

/-- Enumeration order deliberately unsorted: regular files `"b"` before
`"a"`, subdirectories at inodes 3 before 2. -/
def entries1 : List (Option TskFsFile) :=
  [some (regEntry 10 "b"), some (dirEntry 3 "z"),
   some (regEntry 11 "a"), some (dirEntry 2 "y")]

/-- Directory table of `fs1`. -/
def fs1Dirs (i : Nat) : Option (List (Option TskFsFile)) :=
  if i = 1 then some entries1
  else if i = 2 ∨ i = 3 then some []
  else none

/-- Filesystem whose root enumerates `entries1`. -/
def fs1 : TskFsInfo :=
  { baseFS with dirs := fs1Dirs }

/-- A file handle whose metadata carries a parent-name slot at index 0. -/
def name2File : TskFsFile :=
  { meta := some { regMeta 7 with name2_0 := some "recovered" },
    name := none, fsBlockSize := some 512 }

/-- A file handle whose metadata has no name slot at index 0
(`getName2(0)` returns NULL). -/
def noName2File : TskFsFile :=
  { meta := some (regMeta 5), name := none, fsBlockSize := some 512 }

/-- Filesystem on which opening inode address 0 succeeds. -/
def fsC3 : TskFsInfo :=
  { baseFS with fileByInode := fun i => if i = 0 then some name2File else none }

/-- Filesystem on which inode 5 opens but its metadata has no name slot. -/
def fsC4 : TskFsInfo :=
  { baseFS with fileByInode := fun i => if i = 5 then some noName2File else none }

/-- A device whose image and volume opens both succeed on `vol`. -/
def okDevice (vol : TskVsInfo) : Device :=
  { imageOpenStatus := 0, volumeOpenStatus := 0, volume := vol }

/-- A device whose image open fails. -/
def failDevice : Device :=
  { imageOpenStatus := 1, volumeOpenStatus := 0,
    volume := { blockSize := 0, parts := [] } }

/-- Partition 0 carrying `fsC3`. -/
def partC3 : TskVsPartInfo :=
  { addr := 0, desc := some "p0", flags := 1, start := 0, len := 10,
    fsResult := some fsC3 }

/-- Partition 0 carrying `fsC4`. -/
def partC4 : TskVsPartInfo :=
  { partC3 with fsResult := some fsC4 }

/-- Environment mapping every device path to a single-partition volume
holding `fsC3`. -/
def envC3 : String → Device :=
  fun _ => okDevice { blockSize := 512, parts := [some partC3] }

/-- Environment mapping every device path to a single-partition volume
holding `fsC4`. -/
def envC4 : String → Device :=
  fun _ => okDevice { blockSize := 512, parts := [some partC4] }

/-- Query: device `"d"`, partition `"0"`, single non-numeric inode
constraint `"abc"`. -/
def ctxC3 : QueryContext :=
  { devices := ["d"], parts := ["0"], paths := [], inodes := ["abc"] }

/-- Query: device `"d"`, partition `"0"`, inode `"5"`. -/
def ctxC4 : QueryContext :=
  { devices := ["d"], parts := ["0"], paths := [], inodes := ["5"] }

/-- Query with no device constraint. -/
def ctxC8 : QueryContext :=
  { devices := [], parts := ["0"], paths := [], inodes := [] }

/-- A partition on which the filesystem open fails, with both the meta
and the unallocated flag set. -/
def partFail : TskVsPartInfo :=
  { addr := 3, desc := none, flags := 6, start := 100, len := 50,
    fsResult := none }

/-- A partition on which the filesystem open succeeds. -/
def partOk : TskVsPartInfo :=
  { addr := 1, desc := some "lbl", flags := 1, start := 7, len := 9,
    fsResult := some baseFS }

/-- Unfolding of `generateFilesF` at successor fuel: the guard, the directory open, the entry loop, then the pending loop at one fuel less. -/
theorem generateFilesF_succ (fs : TskFsInfo) (dp pt : String) (g : Nat)
    (path : String) (inode : Nat) (st : WalkState) :
    generateFilesF fs dp pt (g + 1) path inode st =
      if 1024 < st.stack then { st with stack := st.stack + 1 }
      else
        match fs.dirs (if inode = 0 then fs.rootINum else inode) with
        | none => { st with stack := st.stack + 1, visits := st.visits + 1 }
        | some entries =>
          let ra := entries.foldl (processEntry path dp pt) ([], [])
          ra.2.foldl (descendStep fs dp pt g)
            { st with stack := st.stack + 1, visits := st.visits + 1,
                      rows := st.rows ++ ra.1 } := rfl

/-- Unfolding of `generateFilesF` at fuel 0: only the entry increment of the depth counter happens. -/
theorem generateFilesF_zero (fs : TskFsInfo) (dp pt : String)
    (path : String) (inode : Nat) (st : WalkState) :
    generateFilesF fs dp pt 0 path inode st = { st with stack := st.stack + 1 } := by
  rw [generateFilesF]
  split <;> rfl

/-- A fold whose step never decreases the measure `f` never decreases it. -/
theorem foldl_state_ge (f : WalkState → Nat)
    (step : WalkState → Nat × String → WalkState)
    (h : ∀ s d, f s ≤ f (step s d)) :
    ∀ (l : List (Nat × String)) (s : WalkState), f s ≤ f (l.foldl step s) := by
  intro l
  induction l with
  | nil => intro s; simp
  | cons d rest ih => intro s; exact le_trans (h s d) (ih (step s d))

/-- A fold whose step never increases the measure `f` never increases it. -/
theorem foldl_state_le (f : WalkState → Nat)
    (step : WalkState → Nat × String → WalkState)
    (h : ∀ s d, f (step s d) ≤ f s) :
    ∀ (l : List (Nat × String)) (s : WalkState), f (l.foldl step s) ≤ f s := by
  intro l
  induction l with
  | nil => intro s; simp
  | cons d rest ih => intro s; exact le_trans (ih (step s d)) (h s d)

/-- The depth counter is incremented on entry to every call (including guarded ones) and never decremented, so it grows by at least one per call. -/
theorem stack_mono (fs : TskFsInfo) (dp pt : String) :
    ∀ (fuel : Nat) (path : String) (inode : Nat) (st : WalkState),
      st.stack + 1 ≤ (generateFilesF fs dp pt fuel path inode st).stack := by
  intro fuel
  induction fuel with
  | zero =>
    intro path inode st
    rw [generateFilesF_zero]
  | succ g ih =>
    intro path inode st
    rw [generateFilesF_succ]
    split
    · simp
    · cases hdir : fs.dirs (if inode = 0 then fs.rootINum else inode) with
      | none => simp
      | some entries =>
        simp only
        refine le_trans ?_ (foldl_state_ge WalkState.stack _ ?_ _ _)
        · simp
        · intro s d
          obtain ⟨k, v⟩ := d
          unfold descendStep
          split
          · exact le_refl _
          · simp only
            have h2 := ih v k { s with descents := s.descents ++ [(k, v)] }
            simp at h2
            omega

/-- The potential `phi` never increases along a walk; since a guard-passing call converts one unit of `1025 - stack` into one visit, this bounds the number of guard-passing calls. -/
theorem phi_nonincreasing (fs : TskFsInfo) (dp pt : String) :
    ∀ (fuel : Nat) (path : String) (inode : Nat) (st : WalkState),
      phi (generateFilesF fs dp pt fuel path inode st) ≤ phi st := by
  intro fuel
  induction fuel with
  | zero =>
    intro path inode st
    rw [generateFilesF_zero]
    simp [phi]
    omega
  | succ g ih =>
    intro path inode st
    rw [generateFilesF_succ]
    split
    · simp [phi]; omega
    · rename_i hguard
      cases hdir : fs.dirs (if inode = 0 then fs.rootINum else inode) with
      | none => simp [phi]; omega
      | some entries =>
        simp only
        refine le_trans (foldl_state_le phi _ ?_ _ _) ?_
        · intro s d
          obtain ⟨k, v⟩ := d
          unfold descendStep
          split
          · exact le_refl _
          · simp only
            have h2 := ih v k { s with descents := s.descents ++ [(k, v)] }
            simp [phi] at h2 ⊢
            omega
        · simp [phi] at hguard ⊢
          omega

/-- One extra unit of fuel changes nothing once the fuel covers the remaining headroom `1025 - stack`: the guard cuts the recursion off first. -/
theorem fuel_succ_eq (fs : TskFsInfo) (dp pt : String) :
    ∀ (g : Nat) (path : String) (inode : Nat) (st : WalkState),
      1025 ≤ st.stack + g →
      generateFilesF fs dp pt (g + 1) path inode st =
        generateFilesF fs dp pt g path inode st := by
  intro g
  induction g with
  | zero =>
    intro path inode st hst
    rw [generateFilesF_succ, generateFilesF_zero, if_pos (by omega)]
  | succ h ihg =>
    intro path inode st hst
    rw [generateFilesF_succ, generateFilesF_succ]
    by_cases hc : 1024 < st.stack
    · rw [if_pos hc, if_pos hc]
    · rw [if_neg hc, if_neg hc]
      cases hdir : fs.dirs (if inode = 0 then fs.rootINum else inode) with
      | none => rfl
      | some entries =>
        simp only
        have key : ∀ (l : List (Nat × String)) (s : WalkState),
            st.stack + 1 ≤ s.stack →
            l.foldl (descendStep fs dp pt (h + 1)) s =
              l.foldl (descendStep fs dp pt h) s := by
          intro l
          induction l with
          | nil => intro s hs; rfl
          | cons d rest ihl =>
            intro s hs
            obtain ⟨k, v⟩ := d
            simp only [List.foldl_cons]
            have hstep : descendStep fs dp pt (h + 1) s (k, v) =
                descendStep fs dp pt h s (k, v) := by
              unfold descendStep
              split
              · rfl
              · simp only
                rw [ihg v k { s with descents := s.descents ++ [(k, v)] }
                  (by simp; omega)]
            rw [hstep]
            apply ihl
            have hmono : s.stack ≤ (descendStep fs dp pt h s (k, v)).stack := by
              unfold descendStep
              split
              · exact le_refl _
              · simp only
                have := stack_mono fs dp pt h v k
                  { s with descents := s.descents ++ [(k, v)] }
                simp at this; omega
            omega
        exact key _ _ (by simp)

/-- Any amount of extra fuel beyond the remaining headroom changes nothing; with `g = 1025` the hypothesis holds for every state, so fuel 1025 models the C++ recursion exactly and in particular that recursion terminates. -/
theorem fuel_add_eq (fs : TskFsInfo) (dp pt : String) :
    ∀ (k g : Nat) (path : String) (inode : Nat) (st : WalkState),
      1025 ≤ st.stack + g →
      generateFilesF fs dp pt (g + k) path inode st =
        generateFilesF fs dp pt g path inode st := by
  intro k
  induction k with
  | zero => intro g path inode st hst; rfl
  | succ j ih =>
    intro g path inode st hst
    have h1 : g + (j + 1) = (g + j) + 1 := by omega
    rw [h1, fuel_succ_eq fs dp pt (g + j) path inode st (by omega),
        ih g path inode st hst]

/-- Walking `chainFS` from a state whose resolved inode matches its depth ends with the counter at exactly 1026 and emits no rows: the chain of 2000 directories is truncated after 1025 levels. -/
theorem chainWalkAux (dp pt : String) :
    ∀ (fuel : Nat) (p : String) (i : Nat) (st : WalkState),
      st.loops = [] →
      (if i = 0 then chainFS.rootINum else i) = st.stack + 1 →
      st.stack ≤ 1025 →
      1025 ≤ st.stack + fuel →
      (generateFilesF chainFS dp pt fuel p i st).stack = 1026 ∧
      (generateFilesF chainFS dp pt fuel p i st).rows = st.rows := by
  intro fuel
  induction fuel with
  | zero =>
    intro p i st hloops hi hle hge
    rw [generateFilesF_zero]
    constructor
    · simp; omega
    · rfl
  | succ g ih =>
    intro p i st hloops hi hle hge
    rw [generateFilesF_succ]
    by_cases hc : 1024 < st.stack
    · rw [if_pos hc]
      constructor
      · simp; omega
      · rfl
    · rw [if_neg hc]
      rw [hi]
      have hdir : chainFS.dirs (st.stack + 1) =
          some [some (dirEntry (st.stack + 1 + 1) "d")] := by
        show chainDirs (st.stack + 1) = _
        unfold chainDirs
        rw [if_pos (by omega : 1 ≤ st.stack + 1 ∧ st.stack + 1 ≤ 2000)]
      rw [hdir]
      have hra : processEntry p dp pt ([], [])
          (some (dirEntry (st.stack + 1 + 1) "d")) =
          ([], [(st.stack + 1 + 1, joinPath p "d")]) := by
        simp [processEntry, dirEntry, dirMeta, isDot, mapInsert]
      simp only [List.foldl_cons, List.foldl_nil, hra]
      unfold descendStep
      rw [if_neg (by simp [hloops])]
      simp only
      have hih := ih (joinPath p "d") (st.stack + 1 + 1)
        { st with stack := st.stack + 1, visits := st.visits + 1,
                  rows := st.rows ++ [],
                  descents := st.descents ++ [(st.stack + 1 + 1, joinPath p "d")] }
        (by simp [hloops]) (by simp) (by simp; omega) (by simp; omega)
      constructor
      · simpa using hih.1
      · have h2 := hih.2
        simp at h2
        simpa using h2

/-- The entry loop appends exactly the rows of the regular-file entries, in native enumeration order. -/
theorem entry_rows (dp pt path : String) :
    ∀ (entries : List (Option TskFsFile)) (r0 : List Row)
      (a0 : List (Nat × String)),
      (entries.foldl (processEntry path dp pt) (r0, a0)).1 =
        r0 ++ entries.filterMap (regularRowOf dp pt path) := by
  intro entries
  induction entries with
  | nil => intro r0 a0; simp
  | cons oe rest ih =>
    intro r0 a0
    simp only [List.foldl_cons, List.filterMap_cons]
    cases oe with
    | none => simp [processEntry, regularRowOf, ih]
    | some f =>
      cases hm : f.meta with
      | none => simp [processEntry, regularRowOf, hm, ih]
      | some m =>
        by_cases hreg : m.type = MetaType.reg
        · simp [processEntry, regularRowOf, hm, hreg, ih, List.append_assoc]
        · by_cases hdir : m.type = MetaType.dir
          · cases hn : f.name with
            | none => simp [processEntry, regularRowOf, hm, hreg, hdir, hn, ih]
            | some n =>
              by_cases hd : isDot n
              · simp [processEntry, regularRowOf, hm, hreg, hdir, hn, hd, ih]
              · simp [processEntry, regularRowOf, hm, hreg, hdir, hn, hd, ih]
          · simp [processEntry, regularRowOf, hm, hreg, hdir, ih]

/-- Keys of `mapInsert` come from the inserted key or the old map. -/
theorem mapInsert_keys_mem :
    ∀ (m : List (Nat × String)) (k : Nat) (v : String) (x : Nat),
      x ∈ (mapInsert m k v).map Prod.fst →
      x = k ∨ x ∈ m.map Prod.fst := by
  intro m
  induction m with
  | nil => intro k v x hx; simp [mapInsert] at hx; left; exact hx
  | cons h2 rest ih =>
    intro k v x hx
    obtain ⟨k2, v2⟩ := h2
    simp only [mapInsert] at hx
    by_cases h1 : k < k2
    · rw [if_pos h1] at hx
      simp at hx ⊢
      tauto
    · rw [if_neg h1] at hx
      by_cases h2 : k = k2
      · rw [if_pos h2] at hx
        simp at hx ⊢
        tauto
      · rw [if_neg h2] at hx
        simp at hx ⊢
        rcases hx with h | h
        · tauto
        · rcases ih k v x (by simpa using h) with h3 | h3
          · tauto
          · simp at h3; tauto

/-- `mapInsert` preserves strict ascending key order. -/
theorem mapInsert_sorted :
    ∀ (m : List (Nat × String)) (k : Nat) (v : String),
      List.Pairwise (fun a b => a < b) (m.map Prod.fst) →
      List.Pairwise (fun a b => a < b) ((mapInsert m k v).map Prod.fst) := by
  intro m
  induction m with
  | nil => intro k v h; simp [mapInsert]
  | cons h2 rest ih =>
    intro k v hp
    obtain ⟨k2, v2⟩ := h2
    simp only [List.map_cons, List.pairwise_cons] at hp
    obtain ⟨hk2, hrest⟩ := hp
    simp only [mapInsert]
    by_cases h1 : k < k2
    · rw [if_pos h1]
      simp only [List.map_cons, List.pairwise_cons]
      refine ⟨?_, hk2, hrest⟩
      intro b hb
      simp at hb
      rcases hb with hb | hb
      · omega
      · have := hk2 b (by simpa using hb); omega
    · rw [if_neg h1]
      by_cases heq : k = k2
      · rw [if_pos heq]
        simp only [List.map_cons, List.pairwise_cons]
        exact ⟨fun b hb => heq ▸ hk2 b hb, hrest⟩
      · rw [if_neg heq]
        simp only [List.map_cons, List.pairwise_cons]
        refine ⟨?_, ih k v hrest⟩
        intro b hb
        rcases mapInsert_keys_mem rest k v b hb with h3 | h3
        · omega
        · exact hk2 b h3

/-- The pending map built by the entry loop has strictly ascending inode keys, for every enumeration order of the entries. -/
theorem entry_pending_sorted (dp pt path : String) :
    ∀ (entries : List (Option TskFsFile)) (r0 : List Row)
      (a0 : List (Nat × String)),
      List.Pairwise (fun a b => a < b) (a0.map Prod.fst) →
      List.Pairwise (fun a b => a < b)
        ((entries.foldl (processEntry path dp pt) (r0, a0)).2.map Prod.fst) := by
  intro entries
  induction entries with
  | nil => intro r0 a0 h; simpa using h
  | cons oe rest ih =>
    intro r0 a0 h
    simp only [List.foldl_cons]
    cases oe with
    | none => exact ih _ _ (by simpa [processEntry] using h)
    | some f =>
      cases hm : f.meta with
      | none => exact ih _ _ (by simpa [processEntry, hm] using h)
      | some m =>
        by_cases hreg : m.type = MetaType.reg
        · exact ih _ _ (by simpa [processEntry, hm, hreg] using h)
        · by_cases hdir : m.type = MetaType.dir
          · cases hn : f.name with
            | none => exact ih _ _ (by simpa [processEntry, hm, hreg, hdir, hn] using h)
            | some n =>
              by_cases hd : isDot n
              · exact ih _ _ (by simpa [processEntry, hm, hreg, hdir, hn, hd] using h)
              · refine ih _ _ ?_
                simp only [processEntry, hm, hreg, hdir, hn, hd]
                simp only [if_neg hreg, if_pos hdir, Bool.false_eq_true, if_neg]
                exact mapInsert_sorted _ _ _ h
          · exact ih _ _ (by simpa [processEntry, hm, hreg, hdir] using h)

/-- A nonempty string has positive length. -/
theorem string_length_pos (n : String) (hn : n ≠ "") : 0 < n.length := by
  cases n with
  | mk data =>
    cases data with
    | nil => exact absurd rfl hn
    | cons c cs => simp [String.length]

/-- Joining a nonempty component yields a strictly longer path. -/
theorem joinPath_length (p n : String) (hn : n ≠ "") :
    p.length < (joinPath p n).length := by
  have hpos := string_length_pos n hn
  unfold joinPath
  rw [if_neg hn]
  split
  · rw [String.length_append]; omega
  · split
    · rename_i hpe
      subst hpe
      exact hpos
    · split
      · rw [String.length_append]; omega
      · rw [String.length_append, String.length_append]; omega

/-- Members of `mapInsert` are the inserted pair or members of the old map. -/
theorem mapInsert_mem :
    ∀ (m : List (Nat × String)) (k : Nat) (v : String) (x : Nat × String),
      x ∈ mapInsert m k v → x = (k, v) ∨ x ∈ m := by
  intro m
  induction m with
  | nil => intro k v x hx; simp [mapInsert] at hx; left; exact hx
  | cons h2 rest ih =>
    intro k v x hx
    obtain ⟨k2, v2⟩ := h2
    simp only [mapInsert] at hx
    by_cases h1 : k < k2
    · rw [if_pos h1] at hx
      rcases List.mem_cons.1 hx with h | h
      · left; exact h
      · right; exact h
    · rw [if_neg h1] at hx
      by_cases heq : k = k2
      · rw [if_pos heq] at hx
        rcases List.mem_cons.1 hx with h | h
        · left; exact h
        · right; exact List.mem_cons_of_mem _ h
      · rw [if_neg heq] at hx
        rcases List.mem_cons.1 hx with h | h
        · right; rw [h]; exact List.mem_cons_self _ _
        · rcases ih k v x h with h3 | h3
          · left; exact h3
          · right; exact List.mem_cons_of_mem _ h3

/-- Every pending entry produced by the entry loop is either inherited from the accumulator or has a path joined from the directory path and some entry name. -/
theorem additional_mem (dp pt path : String) :
    ∀ (entries : List (Option TskFsFile)) (acc : List Row × List (Nat × String))
      (x : Nat × String),
      x ∈ (entries.foldl (processEntry path dp pt) acc).2 →
      x ∈ acc.2 ∨ ∃ f n, (some f) ∈ entries ∧ f.name = some n ∧
        Prod.snd x = joinPath path n := by
  intro entries
  induction entries with
  | nil => intro acc x hx; left; exact hx
  | cons oe rest ih =>
    intro acc x hx
    simp only [List.foldl_cons] at hx
    have hsub : ∀ f n, (some f) ∈ rest ∧ f.name = some n ∧
        Prod.snd x = joinPath path n →
        ∃ f n, (some f) ∈ oe :: rest ∧ f.name = some n ∧
          Prod.snd x = joinPath path n := by
      intro f n ⟨h1, h2, h3⟩
      exact ⟨f, n, List.mem_cons_of_mem _ h1, h2, h3⟩
    rcases ih (processEntry path dp pt acc oe) x hx with hacc | ⟨f, n, h1, h2, h3⟩
    · -- x came through the head step
      cases oe with
      | none => left; exact hacc
      | some f =>
        cases hm : f.meta with
        | none => left; simpa [processEntry, hm] using hacc
        | some m =>
          by_cases hreg : m.type = MetaType.reg
          · left; simpa [processEntry, hm, hreg] using hacc
          · by_cases hdir : m.type = MetaType.dir
            · cases hn : f.name with
              | none => left; simpa [processEntry, hm, hreg, hdir, hn] using hacc
              | some n =>
                by_cases hd : isDot n
                · left; simpa [processEntry, hm, hreg, hdir, hn, hd] using hacc
                · simp only [processEntry, hm, hn] at hacc
                  rw [if_neg hreg, if_pos hdir, if_neg hd] at hacc
                  rcases mapInsert_mem _ _ _ _ hacc with hx2 | hx2
                  · right
                    exact ⟨f, n, List.mem_cons_self _ _, hn, by rw [hx2]⟩
                  · left; exact hx2
            · left; simpa [processEntry, hm, hreg, hdir] using hacc
    · right
      exact hsub f n ⟨h1, h2, h3⟩

/-- The pending loop, given that every recursive call satisfies `WalkNewSpec`, itself satisfies `WalkNewSpec`: visited-set checks before each descent and inserts after it keep the descent paths distinct. -/
theorem fold_new (fs : TskFsInfo) (dp pt : String) (g : Nat) (path : String)
    (hstep : ∀ (p2 : String) (i2 : Nat) (st2 : WalkState),
      WalkNewSpec p2 st2 (generateFilesF fs dp pt g p2 i2 st2)) :
    ∀ (pending : List (Nat × String)) (st : WalkState),
      (∀ d ∈ pending, path.length < (Prod.snd d).length) →
      WalkNewSpec path st (pending.foldl (descendStep fs dp pt g) st) := by
  intro pending
  induction pending with
  | nil =>
    intro st hlen
    exact ⟨[], by simp, by simp, by simp, by simp, by simp⟩
  | cons d rest ih =>
    intro st hlen
    obtain ⟨k, v⟩ := d
    have hvlen : path.length < v.length := hlen (k, v) (List.mem_cons_self _ _)
    have hrest : ∀ d ∈ rest, path.length < (Prod.snd d).length :=
      fun d hd => hlen d (List.mem_cons_of_mem _ hd)
    simp only [List.foldl_cons]
    by_cases hv : v ∈ st.loops
    · rw [show descendStep fs dp pt g st (k, v) = st by
        unfold descendStep; rw [if_pos hv]]
      exact ih st hrest
    · have hds : descendStep fs dp pt g st (k, v) =
        { generateFilesF fs dp pt g v k
            { st with descents := st.descents ++ [(k, v)] } with
          loops := (generateFilesF fs dp pt g v k
            { st with descents := st.descents ++ [(k, v)] }).loops.insert v } := by
        unfold descendStep; rw [if_neg hv]
      rw [hds]
      obtain ⟨new2, hd2, hl2, hn2, hnl2, hlo2⟩ :=
        hstep v k { st with descents := st.descents ++ [(k, v)] }
      set s2 := generateFilesF fs dp pt g v k
        { st with descents := st.descents ++ [(k, v)] } with hs2
      have hd2a : s2.descents = st.descents ++ ((k, v) :: new2) := by
        simpa using hd2
      have hl2a : ∀ d ∈ new2, v.length < (Prod.snd d).length := hl2
      have hnl2a : ∀ d ∈ new2, Prod.snd d ∉ st.loops := by simpa using hnl2
      have hlo2a : ∀ x, x ∈ s2.loops ↔ x ∈ st.loops ∨ x ∈ new2.map Prod.snd := by
        simpa using hlo2
      set s3 : WalkState := { s2 with loops := s2.loops.insert v } with hs3
      obtain ⟨new3, hd3, hl3, hn3, hnl3, hlo3⟩ := ih s3 hrest
      have hs3loops : ∀ x, x ∈ s3.loops ↔
          x = v ∨ x ∈ st.loops ∨ x ∈ new2.map Prod.snd := by
        intro x
        simp only [hs3, List.mem_insert_iff, hlo2a x]
      have hv_in_s3 : v ∈ s3.loops := (hs3loops v).2 (Or.inl rfl)
      have hnew3_not_s3 : ∀ x ∈ new3.map Prod.snd, x ∉ s3.loops := by
        intro x hmem hxl
        obtain ⟨d, hd, hdv⟩ := List.mem_map.1 hmem
        exact hnl3 d hd (hdv ▸ hxl)
      have hv_notin2 : v ∉ new2.map Prod.snd := by
        intro hmem
        obtain ⟨d, hd, hdv⟩ := List.mem_map.1 hmem
        have := hl2a d hd
        rw [hdv] at this
        omega
      refine ⟨(k, v) :: new2 ++ new3, ?_, ?_, ?_, ?_, ?_⟩
      · rw [hd3]
        simp only [hs3]
        rw [hd2a]
        simp
      · intro d hd
        rcases List.mem_cons.1 hd with h | h
        · rw [h]; exact hvlen
        · rcases List.mem_append.1 h with h | h
          · have := hl2a d h
            omega
          · exact hl3 d h
      · simp only [List.map_cons, List.map_append]
        have hnodup23 : (new2.map Prod.snd ++ new3.map Prod.snd).Nodup := by
          refine List.Nodup.append hn2 hn3 ?_
          intro x hx2 hx3
          refine hnew3_not_s3 x hx3 ((hs3loops x).2 ?_)
          right; right; exact hx2
        refine List.Nodup.cons ?_ hnodup23
        intro hmem
        rcases List.mem_append.1 hmem with h | h
        · exact hv_notin2 h
        · exact hnew3_not_s3 v h hv_in_s3
      · intro d hd
        rcases List.mem_cons.1 hd with h | h
        · rw [h]; exact hv
        · rcases List.mem_append.1 h with h | h
          · exact hnl2a d h
          · intro hmem
            refine hnl3 d h ((hs3loops _).2 ?_)
            right; left; exact hmem
      · intro x
        rw [hlo3 x]
        rw [hs3loops x]
        simp only [List.map_cons, List.map_append, List.mem_cons, List.mem_append]
        tauto

/-- On a filesystem without empty entry names, every call of the walker satisfies `WalkNewSpec`: the new descents have strictly longer paths than the call path, their paths are distinct and previously unvisited, and the visited-set grows by exactly those paths. -/
theorem walk_new (fs : TskFsInfo) (dp pt : String) (hfs : namesNonempty fs) :
    ∀ (fuel : Nat) (path : String) (inode : Nat) (st : WalkState),
      WalkNewSpec path st (generateFilesF fs dp pt fuel path inode st) := by
  intro fuel
  induction fuel with
  | zero =>
    intro path inode st
    refine ⟨[], ?_, by simp, by simp, by simp, ?_⟩
    · rw [generateFilesF_zero]; simp
    · rw [generateFilesF_zero]; simp
  | succ g ih =>
    intro path inode st
    rw [generateFilesF_succ]
    split
    · exact ⟨[], by simp, by simp, by simp, by simp, by simp⟩
    · cases hdir : fs.dirs (if inode = 0 then fs.rootINum else inode) with
      | none => exact ⟨[], by simp, by simp, by simp, by simp, by simp⟩
      | some entries =>
        simp only
        have hpend : ∀ d ∈ (entries.foldl (processEntry path dp pt) ([], [])).2,
            path.length < (Prod.snd d).length := by
          intro d hd
          rcases additional_mem dp pt path entries ([], []) d hd with
            h | ⟨f, n, h1, h2, h3⟩
          · simp at h
          · have hne : n ≠ "" := hfs _ _ hdir (some f) h1 f rfl n h2
            rw [h3]
            exact joinPath_length path n hne
        have hfold := fold_new fs dp pt g path (fun p2 i2 st2 => ih p2 i2 st2)
          (entries.foldl (processEntry path dp pt) ([], [])).2
          { st with stack := st.stack + 1, visits := st.visits + 1,
                    rows := st.rows ++
                      (entries.foldl (processEntry path dp pt) ([], [])).1 }
          hpend
        obtain ⟨new, h1, h2, h3, h4, h5⟩ := hfold
        exact ⟨new, by simpa using h1, h2, h3, by simpa using h4,
          by simpa using h5⟩

/-- Claim C1: the recursive walk never exceeds the depth ceiling of 1024.
First conjunct: a call entered with the shared depth counter above 1024
returns immediately, incrementing the counter and visiting nothing (rows,
visited-set, and ghost trace unchanged).  Second conjunct: fuel 1025
exhausts the recursion for every filesystem and state, i.e. the C++
recursion terminates on every image.  Third conjunct: on the synthetic
chain of 2000 nested directories the walk returns with the counter at
exactly 1026 (1025 guard-passing calls plus one guarded call) and no
rows. -/
theorem C1_depth_guard :
    (∀ (fs : TskFsInfo) (dp pt path : String) (inode : Nat) (st : WalkState),
      1024 < st.stack →
      generateFiles fs dp pt path inode st = { st with stack := st.stack + 1 }) ∧
    (∀ (extra : Nat) (fs : TskFsInfo) (dp pt path : String) (inode : Nat)
       (st : WalkState),
      generateFilesF fs dp pt (1025 + extra) path inode st =
        generateFiles fs dp pt path inode st) ∧
    ((generateFiles chainFS "dev" "1" "/" 0 initWalkState).stack = 1026 ∧
     (generateFiles chainFS "dev" "1" "/" 0 initWalkState).rows = []) := by
  refine ⟨?_, ?_, ?_⟩
  · intro fs dp pt path inode st h
    rw [generateFiles, show (1025 : Nat) = 1024 + 1 from rfl,
        generateFilesF_succ, if_pos h]
  · intro extra fs dp pt path inode st
    rw [generateFiles]
    exact fuel_add_eq fs dp pt extra 1025 path inode st (by omega)
  · have h := chainWalkAux "dev" "1" 1025 "/" 0 initWalkState rfl rfl
      (by simp [initWalkState]) (by simp [initWalkState])
    exact ⟨h.1, h.2⟩

/-- Witness for `C1_depth_guard`: at a concrete state with counter 2000 the hypothesis `1024 < stack` holds and the call returns immediately. -/
theorem C1_depth_guard_witness :
    1024 < (2000 : Nat) ∧
    generateFiles baseFS "d" "p" "/" 7
        { stack := 2000, loops := [], rows := [], descents := [], visits := 0 } =
      { stack := 2001, loops := [], rows := [], descents := [], visits := 0 } :=
  ⟨by decide, C1_depth_guard.1 baseFS "d" "p" "/" 7
    { stack := 2000, loops := [], rows := [], descents := [], visits := 0 }
    (by decide)⟩

/-- Claim C10: the depth counter is incremented on entry to every
recursive call and never decremented (first conjunct: it grows by at
least one per call, hence is monotonically non-decreasing across the
walk); the potential `phi` is non-increasing (second conjunct); hence in
one top-level walk, started with the counter reset to 0, at most 1026
calls proceed past the guard (third conjunct, visits ≤ 1026 — the proof
gives 1025), which truncates a wide shallow tree with more than 1025
subdirectories just as it truncates deep nesting. -/
theorem C10_visit_bound :
    (∀ (fs : TskFsInfo) (dp pt path : String) (inode : Nat) (st : WalkState),
      st.stack + 1 ≤ (generateFiles fs dp pt path inode st).stack) ∧
    (∀ (fs : TskFsInfo) (dp pt path : String) (inode : Nat) (st : WalkState),
      phi (generateFiles fs dp pt path inode st) ≤ phi st) ∧
    (∀ (fs : TskFsInfo) (dp pt path : String) (inode : Nat)
       (l : List String) (r : List Row) (ds : List (Nat × String)),
      (generateFiles fs dp pt path inode
        { stack := 0, loops := l, rows := r, descents := ds,
          visits := 0 }).visits ≤ 1026) := by
  refine ⟨?_, ?_, ?_⟩
  · intro fs dp pt path inode st
    exact stack_mono fs dp pt 1025 path inode st
  · intro fs dp pt path inode st
    exact phi_nonincreasing fs dp pt 1025 path inode st
  · intro fs dp pt path inode l r ds
    have h := phi_nonincreasing fs dp pt 1025 path inode
      { stack := 0, loops := l, rows := r, descents := ds, visits := 0 }
    rw [generateFiles]
    simp only [phi] at h
    omega

/-- The sibling example filesystem has no empty entry names. -/
theorem namesNonempty_fsSib : namesNonempty fsSib := by
  intro i l hl oe hoe f hf n hn
  simp only [fsSib, sibDirs] at hl
  split_ifs at hl with h1 h2
  · obtain rfl : [some (dirEntry 3 "a"), some (dirEntry 2 "a")] = l := by
      simpa using hl
    simp at hoe
    rcases hoe with h | h <;> subst h <;>
      · obtain rfl : dirEntry _ "a" = f := by simpa using hf
        simp [dirEntry] at hn
        subst hn
        decide
  · obtain rfl : ([] : List (Option TskFsFile)) = l := by simpa using hl
    simp at hoe

/-- Claim C2 counterexample: on `fsDup`, whose empty-named directory
entries resolve to the child path "/x" of their own enclosing directory,
one top-level walk descends into the path "/x" three times — the insert
into the visited-set happens only after the recursive call returns, so a
descent in progress does not protect its own path.  This refutes "a
given child path is descended into at most once per walk" as stated. -/
theorem C2_same_path_twice :
    (generateFiles fsDup "d" "0" "/" 0 initWalkState).descents =
      [(2, "/x"), (3, "/x"), (4, "/x")] ∧
    ¬ (((generateFiles fsDup "d" "0" "/" 0 initWalkState).descents.map
        Prod.snd).Nodup) := by
  constructor <;> decide

/-- Claim C2 (amended): provided no directory entry carries an empty
name, every descent path strictly extends the path of the call that
spawned it, and one top-level walk descends into a given child path at
most once (the descent-trace paths are distinct); moreover the
visited-set ends holding exactly the descended paths — checked before
each descent, inserted after the recursive call returns.  In particular
two sibling entries resolving to the same child path cause exactly one
descent. -/
theorem C2_visited_once (fs : TskFsInfo) (dp pt : String)
    (hfs : namesNonempty fs) :
    (((generateFiles fs dp pt "/" 0 initWalkState).descents.map
        Prod.snd).Nodup) ∧
    (∀ x, x ∈ (generateFiles fs dp pt "/" 0 initWalkState).loops ↔
      x ∈ (generateFiles fs dp pt "/" 0 initWalkState).descents.map
        Prod.snd) := by
  obtain ⟨new, h1, h2, h3, h4, h5⟩ := walk_new fs dp pt hfs 1025 "/" 0 initWalkState
  rw [generateFiles]
  have hd : (generateFilesF fs dp pt 1025 "/" 0 initWalkState).descents = new := by
    simpa [initWalkState] using h1
  constructor
  · rw [hd]; exact h3
  · intro x
    rw [hd, h5 x]
    simp [initWalkState]

/-- Witness for `C2_visited_once` on `fsSib`: two same-named siblings, one descent recorded. -/
theorem C2_visited_once_witness :
    namesNonempty fsSib ∧
    (((generateFiles fsSib "d" "0" "/" 0 initWalkState).descents.map
        Prod.snd).Nodup) ∧
    (generateFiles fsSib "d" "0" "/" 0 initWalkState).descents = [(2, "/a")] :=
  ⟨namesNonempty_fsSib,
   (C2_visited_once fsSib "d" "0" namesNonempty_fsSib).1,
   by decide⟩

/-- Claim C3 counterexample: the inode string "abc" does not parse, yet
`meta` stays at its initialisation 0 and `TskFsFile::open` is attempted
at inode address 0 (the `safeStrtol` status is ignored); on `fsC3`, where
that open succeeds, a record is emitted.  This refutes "no file open is
attempted for it, no record is emitted for it". -/
theorem C3_nonnumeric_inode_counterexample :
    strToNat "abc" = none ∧
    (genDeviceFile envC3 ctxC3).map (fun r => r.1.length) = some 1 := by
  constructor <;> decide

/-- Claim C3 (amended): a non-parsing inode string leaves the parsed
address at 0 and an open is attempted at inode 0; when that open fails,
the string contributes no record and nothing is raised, and the
remaining inode strings of the same request are processed exactly as if
the bad string were absent. -/
theorem C3_nonnumeric_inode (dp adr : String) (fs : TskFsInfo) (s : String)
    (hs : strToNat s = none) (h0 : fs.fileByInode 0 = none) :
    inodeLookupRows dp adr fs s = some [] ∧
    ∀ (xs ys : List String),
      inodesRows dp adr fs (xs ++ s :: ys) = inodesRows dp adr fs (xs ++ ys) := by
  have hstep : inodeLookupRows dp adr fs s = some [] := by
    unfold inodeLookupRows parsedInode
    rw [hs]
    simp [h0]
  refine ⟨hstep, ?_⟩
  intro xs ys
  unfold inodesRows
  rw [List.foldl_append, List.foldl_append]
  simp only [List.foldl_cons]
  rw [show ((List.foldl
      (fun acc s2 => acc.bind fun rs => (inodeLookupRows dp adr fs s2).map (rs ++ ·))
      (some []) xs).bind fun rs => (inodeLookupRows dp adr fs s).map (rs ++ ·)) =
      List.foldl
        (fun acc s2 => acc.bind fun rs => (inodeLookupRows dp adr fs s2).map (rs ++ ·))
        (some []) xs from ?_]
  rw [hstep]
  cases List.foldl
      (fun acc s2 => acc.bind fun rs => (inodeLookupRows dp adr fs s2).map (rs ++ ·))
      (some []) xs with
  | none => rfl
  | some rs => simp

/-- Witness for `C3_nonnumeric_inode` at the string "zzz" on `baseFS`, inside the request ["7", "zzz", "8"]. -/
theorem C3_nonnumeric_inode_witness :
    strToNat "zzz" = none ∧ baseFS.fileByInode 0 = none ∧
    inodeLookupRows "d" "0" baseFS "zzz" = some [] ∧
    inodesRows "d" "0" baseFS (["7"] ++ "zzz" :: ["8"]) =
      inodesRows "d" "0" baseFS (["7"] ++ ["8"]) :=
  ⟨by decide, rfl,
   (C3_nonnumeric_inode "d" "0" baseFS "zzz" (by decide) rfl).1,
   (C3_nonnumeric_inode "d" "0" baseFS "zzz" (by decide) rfl).2 ["7"] ["8"]⟩

/-- Claim C4: refuted by the code — when the file opens and its metadata
is present but the parent-name slot at index 0 is absent (`getName2(0)`
returns NULL), the source dereferences that NULL in
`meta->getName2(0)->getName()`: the inode lookup, and with it the whole
query, faults (modelled as `none`) instead of leaving the path empty and
producing a record.  The spec describes the intended null-check; the
code omits it. -/
theorem C4_missing_name_slot_crash :
    noName2File.meta = some (regMeta 5) ∧ (regMeta 5).name2_0 = none ∧
    inodeLookupRows "d" "0" fsC4 "5" = none ∧
    genDeviceFile envC4 ctxC4 = none := by
  refine ⟨rfl, rfl, by decide, by decide⟩

/-- Claim C5: when the filesystem open on a partition fails, the emitted
record has `inodes` equal to the literal "-1", `offset` equal to the
partition start times the volume block size (uint64 product), `blocks`
equal to the partition length, `blocks_size` the volume block size, and
`flags` the partition raw flags; when it succeeds, `type`, `flags`,
`offset`, `blocks_size`, `blocks` and `inodes` all come from the
filesystem. -/
theorem C5_partition_fields (dev : String) (bs : Nat) (part : TskVsPartInfo) :
    (part.fsResult = none →
      (partitionRow dev bs part).inodes = some "-1" ∧
      (partitionRow dev bs part).offset =
        some (toString ((part.start * bs) % 2 ^ 64)) ∧
      (partitionRow dev bs part).blocks_size = some (toString bs) ∧
      (partitionRow dev bs part).blocks = some (toString part.len) ∧
      (partitionRow dev bs part).flags = some (toString part.flags)) ∧
    (∀ fs, part.fsResult = some fs →
      (partitionRow dev bs part).type = some fs.fsTypeName ∧
      (partitionRow dev bs part).flags = some (toString fs.flags) ∧
      (partitionRow dev bs part).offset = some (toString fs.offset) ∧
      (partitionRow dev bs part).blocks_size = some (toString fs.blockSize) ∧
      (partitionRow dev bs part).blocks = some (toString fs.blockCount) ∧
      (partitionRow dev bs part).inodes = some (toString fs.inumCount)) := by
  constructor
  · intro h
    unfold partitionRow
    rw [h]
    exact ⟨rfl, rfl, rfl, rfl, rfl⟩
  · intro fs h
    unfold partitionRow
    rw [h]
    exact ⟨rfl, rfl, rfl, rfl, rfl, rfl⟩

/-- Witness for `C5_partition_fields` on `partFail` (open fails) and `partOk` (open succeeds). -/
theorem C5_partition_fields_witness :
    partFail.fsResult = none ∧
    (partitionRow "d" 512 partFail).inodes = some "-1" ∧
    partOk.fsResult = some baseFS ∧
    (partitionRow "d" 512 partOk).type = some baseFS.fsTypeName :=
  ⟨rfl, ((C5_partition_fields "d" 512 partFail).1 rfl).1, rfl,
   ((C5_partition_fields "d" 512 partOk).2 baseFS rfl).1⟩

/-- Claim C6: for a partition whose filesystem open fails, the type
label follows flag priority — meta flag set gives "meta" (even together
with the unallocated flag), otherwise unallocated flag set gives
"unallocated", otherwise "normal". -/
theorem C6_type_priority (dev : String) (bs : Nat) (part : TskVsPartInfo)
    (hfail : part.fsResult = none) :
    (part.flags &&& FLAG_META ≠ 0 →
      (partitionRow dev bs part).type = some "meta") ∧
    (part.flags &&& FLAG_META = 0 → part.flags &&& FLAG_UNALLOC ≠ 0 →
      (partitionRow dev bs part).type = some "unallocated") ∧
    (part.flags &&& FLAG_META = 0 → part.flags &&& FLAG_UNALLOC = 0 →
      (partitionRow dev bs part).type = some "normal") := by
  unfold partitionRow
  rw [hfail]
  dsimp only
  refine ⟨?_, ?_, ?_⟩
  · intro h1
    rw [if_pos h1]
  · intro h1 h2
    rw [if_neg (by omega : ¬part.flags &&& FLAG_META ≠ 0), if_pos h2]
  · intro h1 h2
    rw [if_neg (by omega : ¬part.flags &&& FLAG_META ≠ 0),
        if_neg (by omega : ¬part.flags &&& FLAG_UNALLOC ≠ 0)]

/-- Witness for `C6_type_priority` on `partFail`, whose flags have both meta and unallocated bits set: the type is "meta". -/
theorem C6_type_priority_witness :
    partFail.fsResult = none ∧ partFail.flags &&& FLAG_META ≠ 0 ∧
    partFail.flags &&& FLAG_UNALLOC ≠ 0 ∧
    (partitionRow "d" 512 partFail).type = some "meta" :=
  ⟨rfl, by decide, by decide,
   (C6_type_priority "d" 512 partFail rfl).1 (by decide)⟩

/-- Claim C7: within one visited directory, the entry loop appends the
rows of regular files in native enumeration order (first conjunct); the
pending subdirectory map has strictly ascending inode keys whatever the
enumeration order was (second conjunct); and a guard-passing call on an
openable directory appends those rows and then folds the pending map in
that ascending order (third conjunct). -/
theorem C7_order :
    (∀ (dp pt path : String) (entries : List (Option TskFsFile))
       (r0 : List Row) (a0 : List (Nat × String)),
      (entries.foldl (processEntry path dp pt) (r0, a0)).1 =
        r0 ++ entries.filterMap (regularRowOf dp pt path)) ∧
    (∀ (dp pt path : String) (entries : List (Option TskFsFile)),
      List.Pairwise (fun a b => a < b)
        ((entries.foldl (processEntry path dp pt) ([], [])).2.map Prod.fst)) ∧
    (∀ (fs : TskFsInfo) (dp pt path : String) (inode : Nat) (st : WalkState)
       (entries : List (Option TskFsFile)),
      st.stack ≤ 1024 →
      fs.dirs (if inode = 0 then fs.rootINum else inode) = some entries →
      generateFiles fs dp pt path inode st =
        ((entries.foldl (processEntry path dp pt) ([], [])).2).foldl
          (descendStep fs dp pt 1024)
          { st with stack := st.stack + 1, visits := st.visits + 1,
                    rows := st.rows ++
                      (entries.foldl (processEntry path dp pt) ([], [])).1 }) := by
  refine ⟨?_, ?_, ?_⟩
  · intro dp pt path entries r0 a0
    exact entry_rows dp pt path entries r0 a0
  · intro dp pt path entries
    exact entry_pending_sorted dp pt path entries [] [] (by simp)
  · intro fs dp pt path inode st entries hst hdir
    rw [generateFiles, show (1025 : Nat) = 1024 + 1 from rfl,
        generateFilesF_succ, if_neg (by omega), hdir]

/-- Witness for `C7_order` on `fs1`, whose enumeration order is deliberately unsorted. -/
theorem C7_order_witness :
    initWalkState.stack ≤ 1024 ∧
    fs1.dirs (if (0 : Nat) = 0 then fs1.rootINum else 0) = some entries1 ∧
    generateFiles fs1 "d" "0" "/" 0 initWalkState =
      ((entries1.foldl (processEntry "/" "d" "0") ([], [])).2).foldl
        (descendStep fs1 "d" "0" 1024)
        { initWalkState with
            stack := initWalkState.stack + 1,
            visits := initWalkState.visits + 1,
            rows := initWalkState.rows ++
              (entries1.foldl (processEntry "/" "d" "0") ([], [])).1 } :=
  ⟨by decide, rfl,
   C7_order.2.2 fs1 "d" "0" "/" 0 initWalkState entries1 (by decide) rfl⟩

/-- Claim C8: a file-listing query with no device constraint, or with a
partition-constraint count different from one, returns the empty result
set together with the logged diagnostic, and does not fault. -/
theorem C8_missing_filters (env : String → Device) (ctx : QueryContext)
    (h : ctx.devices = [] ∨ ctx.parts.length ≠ 1) :
    genDeviceFile env ctx = some ([], [missingFilterLog]) := by
  unfold genDeviceFile
  rw [if_pos h]

/-- Witness for `C8_missing_filters` on a query with no device constraint. -/
theorem C8_missing_filters_witness :
    (ctxC8.devices = [] ∨ ctxC8.parts.length ≠ 1) ∧
    genDeviceFile envC3 ctxC8 = some ([], [missingFilterLog]) :=
  ⟨Or.inl rfl, C8_missing_filters envC3 ctxC8 (Or.inl rfl)⟩

/-- Claim C9: `DeviceHelper::open` performs the library opens only on
the first call (at least one open call happens then, and the `opened_`
flag is set); any later call on the same instance returns the cached
outcome, leaves the state untouched, and performs zero library calls —
whatever device responses the later call would have seen, and whether
the first attempt succeeded or failed. -/
theorem C9_open_cached :
    (∀ d : Device, 1 ≤ (dhOpen d initOpenState).2.2) ∧
    (∀ d : Device, (dhOpen d initOpenState).2.1.opened = true) ∧
    (∀ (d : Device) (st : OpenState), st.opened = true →
      dhOpen d st = (st.openedResult, st, 0)) ∧
    (∀ d d2 : Device,
      dhOpen d2 (dhOpen d initOpenState).2.1 =
        ((dhOpen d initOpenState).1, (dhOpen d initOpenState).2.1, 0)) := by
  have hcached : ∀ (d : Device) (st : OpenState), st.opened = true →
      dhOpen d st = (st.openedResult, st, 0) := by
    intro d st h
    unfold dhOpen
    rw [if_pos h]
  have hopened : ∀ d : Device, (dhOpen d initOpenState).2.1.opened = true := by
    intro d
    unfold dhOpen initOpenState
    by_cases h : d.imageOpenStatus ≠ 0 <;> simp [h]
  have hres : ∀ d : Device,
      (dhOpen d initOpenState).2.1.openedResult = (dhOpen d initOpenState).1 := by
    intro d
    unfold dhOpen initOpenState
    by_cases h : d.imageOpenStatus ≠ 0 <;> simp [h]
  refine ⟨?_, hopened, hcached, ?_⟩
  · intro d
    unfold dhOpen initOpenState
    by_cases h : d.imageOpenStatus ≠ 0 <;> simp [h]
  · intro d d2
    rw [hcached d2 _ (hopened d), hres d]

/-- Witness for `C9_open_cached`: a state with `opened_` set returns the cached failure outcome with zero library calls. -/
theorem C9_open_cached_witness :
    ({ opened := true, openedResult := false } : OpenState).opened = true ∧
    dhOpen failDevice { opened := true, openedResult := false } =
      (false, { opened := true, openedResult := false }, 0) :=
  ⟨rfl, C9_open_cached.2.2.1 failDevice
    { opened := true, openedResult := false } rfl⟩

end Sleuthkit
